import Mathlib

/-!
Verification of the DailyWordDataGen pipeline against its specification.

The Python sources are embedded shallowly:
* `src/src/checkpoint.py` — checkpoint data and the `CheckpointManager`
  operations (`mark_processed`, `get_unprocessed_indices`);
* `src/batch_process.py` — `get_row_range_for_frequency`,
  `batch_has_valid_output`, the argv parsing of `main`, and the main
  batch loop with its stop-on-failure behaviour;
* `src/src/step3_generation.py` — the per-word generation loop of
  `run_step3` with its consecutive-failure circuit breaker and periodic
  saving, together with the error classification of
  `src/src/claude_client.py`;
* `src/scheduled_batch.py` — `calculate_run_times`,
  `find_current_bucket_index`, and the command line built by
  `run_batch_process`.

File I/O, logging and subprocess plumbing are abstracted: a JSON artifact
becomes its parse result (`Option Nat`, the item count when parsing
succeeds), the per-word generation call becomes its outcome (an entry, or
a list of error strings), and wall-clock datetimes become rationals
(hours since an arbitrary epoch), which models Python `datetime` +
`timedelta` arithmetic exactly.
-/

namespace DailyWord

/-! ### Checkpoint (`src/src/checkpoint.py`, `src/src/models.py`)

`CheckpointData` is the pydantic model; `mark_processed` and
`get_unprocessed_indices` are the corresponding `CheckpointManager`
methods, with the load/save file plumbing elided (the in-memory `_data`
is the state). -/

structure CheckpointData where
  processed_words : List String := []
  failed_words : List String := []
  last_index : Int := 0
  deriving Repr, DecidableEq

/-- `CheckpointManager.mark_processed`: append the word to
`processed_words` unless already present, then set `last_index`. -/
def mark_processed (d : CheckpointData) (word : String) (index : Int) :
    CheckpointData :=
  let d1 := if word ∈ d.processed_words then d
            else { d with processed_words := d.processed_words ++ [word] }
  { d1 with last_index := index }

/-- `CheckpointManager.get_unprocessed_indices`: Python
`list(range(len(processed_words), total_count))`. -/
def get_unprocessed_indices (d : CheckpointData) (total_count : Nat) :
    List Nat :=
  List.range' d.processed_words.length
    (total_count - d.processed_words.length)

/-! ### Row ranges (`src/batch_process.py`)

`get_row_range_for_frequency` takes the list of
`(row_index, frequency, word)` tuples. -/

/-- `get_row_range_for_frequency`: collect row indices whose frequency
lies in `[min_freq, max_freq]`; `None` when empty, else
`(min(indices), max(indices) + 1)`. -/
def get_row_range_for_frequency (words : List (Nat × Int × String))
    (min_freq max_freq : Int) : Option (Nat × Nat) :=
  let matching_indices := words.filterMap
    (fun x => if min_freq ≤ x.2.1 ∧ x.2.1 ≤ max_freq then some x.1 else none)
  if matching_indices.isEmpty then none
  else some (matching_indices.min?.getD 0, matching_indices.max?.getD 0 + 1)

/-! ### Output validation (`src/batch_process.py`)

A JSON artifact in the batch folder is modelled by its parse result:
`some n` when `json.load` succeeds on a list of `n` items, `none` when it
raises. Python compares `len(data) >= expected_word_count * 0.5`; for the
integer sizes in play `expected_word_count * 0.5` is the exact rational
`expected / 2`, so the comparison is modelled over `ℚ`. -/

/-- `batch_has_valid_output`: false when the glob finds no files;
otherwise scan the files, skipping the ones that fail to parse, and
return true at the first parsable file whose item count reaches half of
the expected word count. -/
def batch_has_valid_output (json_files : List (Option Nat))
    (expected_word_count : Nat) : Bool :=
  if json_files.isEmpty then false
  else json_files.any (fun parsed =>
    match parsed with
    | some n => decide ((expected_word_count : ℚ) * (1 / 2) ≤ (n : ℚ))
    | none => false)

/-! ### Command-line parsing of `batch_process.py main`

Python `int(arg)`: strip an optional sign, then decimal digits;
any other string raises `ValueError`, on which `main` prints the usage
line and exits with status 1 (modelled as `none`). -/

def digitsToNat (l : List Char) : Option Nat :=
  if l ≠ [] ∧ l.all Char.isDigit then
    some (l.foldl (fun acc c => acc * 10 + (c.toNat - 48)) 0)
  else none

/-- Python `int(...)` on a string argument. -/
def pyParseInt (s : String) : Option Int :=
  match s.data with
  | '-' :: rest => (digitsToNat rest).map (fun n => -(n : Int))
  | '+' :: rest => (digitsToNat rest).map (fun n => (n : Int))
  | l => (digitsToNat l).map (fun n => (n : Int))

/-- The argv loop of `batch_process.py main`: `--force` sets the flag,
anything else must parse as an int and becomes the start batch;
a non-int argument aborts with the usage error (`none`). -/
def parse_batch_args : List String → Int → Bool → Option (Int × Bool)
  | [], start_batch, force => some (start_batch, force)
  | arg :: rest, start_batch, force =>
    if arg = "--force" then parse_batch_args rest start_batch true
    else
      match pyParseInt arg with
      | some n => parse_batch_args rest n force
      | none => none

/-- The command line built by `scheduled_batch.py run_batch_process`
(the part after `"python" "batch_process.py"` is what `main` sees as
`sys.argv[1:]`). -/
def run_batch_process_cmd (start_batch batch_count : Int) (force : Bool) :
    List String :=
  ["python", "batch_process.py", toString start_batch, "--count",
    toString batch_count] ++ (if force then ["--force"] else [])

/-! ### The main batch loop of `batch_process.py`

`process_batch` is abstracted by an outcome oracle: `empty` when
`count_words_in_range` is 0 (the loop skips without calling
`process_batch`), otherwise `success` or `failure` as reported by
`process_batch`. The ghost field `attempted` records the batch indices
on which `process_batch` was invoked. -/

inductive BatchOutcome
  | empty
  | success
  | failure
  deriving Repr, DecidableEq

structure BatchRunState where
  failed_batches : List Nat := []
  skipped_batches : Nat := 0
  processed_batches : Nat := 0
  attempted : List Nat := []
  stopped_early : Bool := false
  deriving Repr, DecidableEq

/-- The `for batch_index in range(start_batch, total_batches)` loop:
skip empty batches, count successes, and on the first failure record the
batch and break out immediately. -/
def batch_main_loop (outcome : Nat → BatchOutcome) :
    List Nat → BatchRunState → BatchRunState
  | [], st => st
  | b :: rest, st =>
    match outcome b with
    | .empty =>
        batch_main_loop outcome rest
          { st with skipped_batches := st.skipped_batches + 1 }
    | .success =>
        batch_main_loop outcome rest
          { st with processed_batches := st.processed_batches + 1,
                    attempted := st.attempted ++ [b] }
    | .failure =>
        { st with failed_batches := st.failed_batches ++ [b],
                  attempted := st.attempted ++ [b],
                  stopped_early := true }

/-- `batch_process.py main` after argv parsing: run the loop over
`range(start_batch, total_batches)` and return 0 when no batch failed,
1 otherwise. -/
def batch_main (outcome : Nat → BatchOutcome)
    (start_batch total_batches : Nat) : BatchRunState × Nat :=
  let st := batch_main_loop outcome
    (List.range' start_batch (total_batches - start_batch)) {}
  (st, if st.failed_batches.isEmpty then 0 else 1)

/-! ### Step 3 generation loop (`src/src/step3_generation.py`)

`generate_for_word` is abstracted by its outcome: `ok ve` when it
returns an entry (with validation errors `ve`), `fail errors` when the
underlying `ClaudeGenerationError` was caught and `(None, [str(e)])`
returned. An entry is identified by its word, so `entries_dict` and the
saved output file are lists of words. -/

inductive GenOutcome
  | ok (validation_errors : List String)
  | fail (errors : List String)
  deriving Repr, DecidableEq

/-- Containment of `pat` in `hay` as lists of characters
(Python `pat in hay` on strings). -/
def listContains (hay pat : List Char) : Bool :=
  pat.isPrefixOf hay ||
    match hay with
    | [] => false
    | _ :: t => listContains t pat

def strContains (hay pat : String) : Bool :=
  listContains hay.data pat.data

/-- `any("Claude CLI error" in str(e) for e in errors)`. -/
def hasCliError (errors : List String) : Bool :=
  errors.any (fun e => strContains e "Claude CLI error")

/-- Python dict insertion restricted to keys: `d[k] = v` keeps the
first-insertion position of an existing key. -/
def dictInsert (l : List String) (w : String) : List String :=
  if w ∈ l then l else l ++ [w]

structure Step3State where
  entries : List String
  consec : Nat
  disk : List String
  cpProcessed : List String
  cpFailed : List String
  deriving Repr, DecidableEq

/-- The `if (i + 1) % 10 == 0: save_final_output(...)` tail of each
loop iteration. -/
def periodicSave (i : Nat) (st : Step3State) : Step3State :=
  if (i + 1) % 10 = 0 then { st with disk := st.entries } else st

/-- One iteration of the `for i, enriched in enumerate(...)` loop of
`run_step3`, for the word at position `i`.  `Except.error` models the
`ClaudeConsecutiveFailureError` raised when the incremented consecutive
CLI-failure count reaches the threshold 2 (the raise skips the periodic
save of that iteration). -/
def step3Iter (i : Nat) (st : Step3State) (item : String × GenOutcome) :
    Except Step3State Step3State :=
  match item.2 with
  | .ok _ =>
      Except.ok (periodicSave i
        { st with entries := dictInsert st.entries item.1,
                  cpProcessed := dictInsert st.cpProcessed item.1,
                  consec := 0 })
  | .fail errs =>
      if hasCliError errs then
        if st.consec + 1 ≥ 2 then
          Except.error { st with cpFailed := dictInsert st.cpFailed item.1,
                                 consec := st.consec + 1 }
        else
          Except.ok (periodicSave i
            { st with cpFailed := dictInsert st.cpFailed item.1,
                      consec := st.consec + 1 })
      else
        Except.ok (periodicSave i
          { st with cpFailed := dictInsert st.cpFailed item.1,
                    consec := 0 })

/-- The whole word loop, starting at position `i`. -/
def step3Loop (i : Nat) (st : Step3State) :
    List (String × GenOutcome) → Except Step3State Step3State
  | [] => Except.ok st
  | item :: rest =>
    match step3Iter i st item with
    | Except.ok st2 => step3Loop (i + 1) st2 rest
    | Except.error st2 => Except.error st2

/-- The same iteration with the circuit breaker ignored (on the abort
branch nothing but the failure bookkeeping has happened yet). Used to
name the state reached after a prefix of the loop. -/
def step3IterNoAbort (i : Nat) (st : Step3State)
    (item : String × GenOutcome) : Step3State :=
  match step3Iter i st item with
  | Except.ok st2 => st2
  | Except.error st2 => st2

def step3StateAtFrom (i : Nat) (st : Step3State) :
    List (String × GenOutcome) → Step3State
  | [] => st
  | item :: rest => step3StateAtFrom (i + 1) (step3IterNoAbort i st item) rest

/-- The state `run_step3` starts the loop in: `entries_dict` holds the
entries loaded from the output file (when resuming), `consecutive_failures`
is 0, the output file on disk is untouched, the step-3 checkpoint lists
are as loaded. -/
def step3Init (loaded disk0 : List String) : Step3State :=
  { entries := List.foldl dictInsert [] loaded, consec := 0, disk := disk0,
    cpProcessed := [], cpFailed := [] }

/-- `run_step3` around the loop: on `ClaudeConsecutiveFailureError`
return the previously loaded `final_entries` without saving; on normal
completion save the accumulated entries and return them. Result:
(returned entries, final content of the output file). -/
def run_step3 (loaded disk0 : List String)
    (items : List (String × GenOutcome)) : List String × List String :=
  match step3Loop 0 (step3Init loaded disk0) items with
  | Except.error _stAbort => (loaded, _stAbort.disk)
  | Except.ok stEnd => (stEnd.entries, stEnd.entries)

/-- Is the generation outcome a failure whose error text contains
`"Claude CLI error"`? (These are exactly the failures that advance the
consecutive-failure counter.) -/
def isCliFail (item : String × GenOutcome) : Bool :=
  match item.2 with
  | .fail errs => hasCliError errs
  | .ok _ => false

/-- Two adjacent CLI-error failures somewhere in the item list. -/
def hasAdjCliFail : List (String × GenOutcome) → Bool
  | a :: b :: rest => (isCliFail a && isCliFail b) || hasAdjCliFail (b :: rest)
  | _ => false

def exceptIsError : Except Step3State Step3State → Bool
  | Except.error _ => true
  | Except.ok _ => false

/-! ### Scheduler time math (`src/scheduled_batch.py`)

Datetimes are rationals (hours since an arbitrary epoch): `datetime`
comparison and `timedelta(hours=h)` addition are exactly order and
addition on `ℚ`. -/

/-- The `while current <= end_time` loop of `calculate_run_times`.
Termination: each step reduces `⌊(end_time - current) / interval⌋ + 1`,
which is positive while `current ≤ end_time`. -/
def runTimesFrom (end_time interval : ℚ) (hpos : 0 < interval)
    (current : ℚ) : List ℚ :=
  if _hle : current ≤ end_time then
    current :: runTimesFrom end_time interval hpos (current + interval)
  else []
  termination_by (⌊(end_time - current) / interval⌋ + 1).toNat
  decreasing_by
    have h1 : (end_time - (current + interval)) / interval
        = (end_time - current) / interval - 1 := by
      field_simp
      ring
    have h2 : (0 : ℚ) ≤ (end_time - current) / interval :=
      div_nonneg (by linarith [_hle]) (le_of_lt hpos)
    have h3 : (0 : ℤ) ≤ ⌊(end_time - current) / interval⌋ :=
      Int.floor_nonneg.mpr h2
    rw [h1]
    rw [Int.floor_sub_one]
    omega

/-- `calculate_run_times`: with a nonpositive interval the Python loop
either returns `[]` at once (`start > end`) or never terminates; the
model returns `[]` there, and the claims only concern `0 < interval`. -/
def calculate_run_times (start_time end_time interval_hours : ℚ) :
    List ℚ :=
  if h : 0 < interval_hours then
    runTimesFrom end_time interval_hours h start_time
  else []

/-- The `for i in range(len(run_times) - 1, -1, -1)` loop of
`find_current_bucket_index`: `fuel = i + 1` examines index `i` and
counts down; falling off the loop returns 0. -/
def findBucketFrom (run_times : List ℚ) (now : ℚ) : Nat → Nat
  | 0 => 0
  | i + 1 => if run_times.getD i 0 ≤ now then i else findBucketFrom run_times now i

/-- `find_current_bucket_index`. -/
def find_current_bucket_index (run_times : List ℚ) (now : ℚ) : Nat :=
  if run_times.isEmpty then 0
  else if now < run_times.headD 0 then 0
  else findBucketFrom run_times now run_times.length

/-! ## Theorems -/

/-! ### Checkpoint resume (claim C3) -/

theorem drop_range_eq (P N : Nat) :
    (List.range N).drop P = List.range' P (N - P) := by
  rcases Nat.le_total P N with h | h
  · have hsplit := List.range'_append 0 P (N - P) 1
    simp only [Nat.zero_add, Nat.one_mul] at hsplit
    have hN : N - P + P = N := Nat.sub_add_cancel h
    rw [hN] at hsplit
    calc (List.range N).drop P
        = (List.range' 0 P ++ List.range' P (N - P)).drop P := by
          rw [List.range_eq_range', ← hsplit]
      _ = List.range' P (N - P) := by
          have hl : (List.range' 0 P).length = P := List.length_range' 0 1 P
          have hd := List.drop_left (List.range' 0 P) (List.range' P (N - P))
          rw [hl] at hd
          exact hd
  · have h1 : (List.range N).length ≤ P := by simpa using h
    rw [List.drop_eq_nil_of_le h1, Nat.sub_eq_zero_of_le h]
    simp

/-- C3: for a checkpoint whose processed list has length `P`,
`get_unprocessed_indices N` is exactly `[P, P+1, ..., N-1]` (the suffix
of `range N` from position `P`: it has `N - P` elements and its `k`-th
element is `P + k`), and it depends only on the length of the processed
list, not on which keys it contains. -/
theorem get_unprocessed_indices_spec (d : CheckpointData) (N : Nat) :
    get_unprocessed_indices d N
      = (List.range N).drop d.processed_words.length ∧
    (get_unprocessed_indices d N).length = N - d.processed_words.length ∧
    (∀ k (hk : k < (get_unprocessed_indices d N).length),
      (get_unprocessed_indices d N).get ⟨k, hk⟩
        = d.processed_words.length + k) ∧
    (∀ d2 : CheckpointData,
      d2.processed_words.length = d.processed_words.length →
      get_unprocessed_indices d2 N = get_unprocessed_indices d N) := by
  refine ⟨(drop_range_eq _ _).symm, ?_, ?_, ?_⟩
  · simp [get_unprocessed_indices]
  · intro k hk
    simp [get_unprocessed_indices, List.getElem_range']
  · intro d2 h2
    simp [get_unprocessed_indices, h2]

/-- Witness for C3 at a concrete checkpoint: 2 processed words,
8 total. -/
theorem get_unprocessed_indices_spec_witness :
    get_unprocessed_indices ⟨["alpha", "beta"], [], 1⟩ 4
      = (List.range 4).drop 2 := by
  exact (get_unprocessed_indices_spec ⟨["alpha", "beta"], [], 1⟩ 4).1

/-! ### Checkpoint idempotence (claim C8) -/

/-- C8: from any checkpoint state in which the key occurs at most once
(the invariant `mark_processed` itself maintains), calling
`mark_processed k i` twice leaves `k` in `processed_words` exactly once,
`last_index` is the `i` of the most recent call, and the repeated call
with the same index is a no-op. -/
theorem mark_processed_idempotent (d : CheckpointData) (k : String)
    (i1 i2 : Int) (h : d.processed_words.count k ≤ 1) :
    ((mark_processed (mark_processed d k i1) k i2).processed_words.count k
      = 1) ∧
    (mark_processed (mark_processed d k i1) k i2).last_index = i2 ∧
    mark_processed (mark_processed d k i1) k i1 = mark_processed d k i1 := by
  by_cases hm : k ∈ d.processed_words
  · have hc : 0 < d.processed_words.count k := List.count_pos_iff.mpr hm
    have h1 : d.processed_words.count k = 1 := le_antisymm h hc
    refine ⟨?_, ?_, ?_⟩ <;> simp [mark_processed, hm, h1]
  · have hc0 : d.processed_words.count k = 0 := List.count_eq_zero.mpr hm
    have hmem : k ∈ d.processed_words ++ [k] := by simp
    refine ⟨?_, ?_, ?_⟩ <;>
      simp [mark_processed, hm, hmem, List.count_append, hc0]

/-- Witness for C8 at a concrete checkpoint. -/
theorem mark_processed_idempotent_witness :
    ((mark_processed (mark_processed ⟨["a"], ["f"], 0⟩ "b" 3) "b" 7
        ).processed_words.count "b" = 1) ∧
    (mark_processed (mark_processed ⟨["a"], ["f"], 0⟩ "b" 3) "b" 7
        ).last_index = 7 ∧
    mark_processed (mark_processed ⟨["a"], ["f"], 0⟩ "b" 3) "b" 3
      = mark_processed ⟨["a"], ["f"], 0⟩ "b" 3 :=
  mark_processed_idempotent ⟨["a"], ["f"], 0⟩ "b" 3 7 (by decide)

/-! ### Row ranges (claim C7) -/

/-- C7: `get_row_range_for_frequency` returns `none` iff no item's
frequency lies in `[min_freq, max_freq]`; otherwise it returns
`(m, M + 1)` where `m` and `M` are the least and greatest row indices
among the matching items. -/
theorem get_row_range_for_frequency_spec
    (words : List (Nat × Int × String)) (minF maxF : Int) :
    (get_row_range_for_frequency words minF maxF = none ↔
      ∀ x ∈ words, ¬(minF ≤ x.2.1 ∧ x.2.1 ≤ maxF)) ∧
    (∀ lo hi, get_row_range_for_frequency words minF maxF = some (lo, hi) →
      (∃ x ∈ words, x.1 = lo ∧ minF ≤ x.2.1 ∧ x.2.1 ≤ maxF) ∧
      (∃ x ∈ words, x.1 + 1 = hi ∧ minF ≤ x.2.1 ∧ x.2.1 ≤ maxF) ∧
      ∀ x ∈ words, minF ≤ x.2.1 ∧ x.2.1 ≤ maxF → lo ≤ x.1 ∧ x.1 + 1 ≤ hi)
    := by
  have hunfold : get_row_range_for_frequency words minF maxF =
      (if (words.filterMap (fun x =>
          if minF ≤ x.2.1 ∧ x.2.1 ≤ maxF then some x.1 else none)).isEmpty
        then none
        else some ((words.filterMap (fun x =>
            if minF ≤ x.2.1 ∧ x.2.1 ≤ maxF then some x.1 else none)).min?.getD 0,
          (words.filterMap (fun x =>
            if minF ≤ x.2.1 ∧ x.2.1 ≤ maxF then some x.1 else none)).max?.getD 0
            + 1)) := rfl
  have hmem : ∀ a : Nat,
      (a ∈ words.filterMap (fun x =>
        if minF ≤ x.2.1 ∧ x.2.1 ≤ maxF then some x.1 else none)) ↔
      ∃ x ∈ words, (minF ≤ x.2.1 ∧ x.2.1 ≤ maxF) ∧ x.1 = a := by
    intro a
    simp only [List.mem_filterMap]
    constructor
    · rintro ⟨x, hx, hfx⟩
      by_cases hc : minF ≤ x.2.1 ∧ x.2.1 ≤ maxF
      · simp only [hc, if_pos] at hfx
        exact ⟨x, hx, hc, by injection hfx⟩
      · simp [hc] at hfx
    · rintro ⟨x, hx, hc, ha⟩
      exact ⟨x, hx, by simp [hc, ha]⟩
  constructor
  · rw [hunfold]
    split
    · next hEmpty =>
        simp only [true_iff]
        have hnil := List.isEmpty_iff.mp hEmpty
        intro x hx hc
        have : x.1 ∈ words.filterMap (fun x =>
            if minF ≤ x.2.1 ∧ x.2.1 ≤ maxF then some x.1 else none) :=
          (hmem x.1).mpr ⟨x, hx, hc, rfl⟩
        rw [hnil] at this
        exact absurd this (List.not_mem_nil _)
    · next hEmpty =>
        simp only [reduceCtorEq, false_iff, not_forall]
        have hne : words.filterMap (fun x =>
            if minF ≤ x.2.1 ∧ x.2.1 ≤ maxF then some x.1 else none) ≠ [] :=
          fun hh => hEmpty (by simp [hh])
        obtain ⟨a, ha⟩ := List.exists_mem_of_ne_nil _ hne
        obtain ⟨x, hx, hc, _⟩ := (hmem a).mp ha
        exact ⟨x, hx, fun hn => hn hc⟩
  · intro lo hi heq
    rw [hunfold] at heq
    split at heq
    · exact absurd heq (by simp)
    · next hEmpty =>
        have hne : words.filterMap (fun x =>
            if minF ≤ x.2.1 ∧ x.2.1 ≤ maxF then some x.1 else none) ≠ [] :=
          fun hh => hEmpty (by simp [hh])
        set m := words.filterMap (fun x =>
            if minF ≤ x.2.1 ∧ x.2.1 ≤ maxF then some x.1 else none) with hm
        obtain ⟨mn, hmn⟩ : ∃ mn, m.min? = some mn := by
          cases hcc : m.min? with
          | none => exact absurd (List.min?_eq_none_iff.mp hcc) hne
          | some v => exact ⟨v, rfl⟩
        obtain ⟨mx, hmx⟩ : ∃ mx, m.max? = some mx := by
          cases hcc : m.max? with
          | none =>
              rw [List.max?_eq_none_iff] at hcc
              exact absurd hcc hne
          | some v => exact ⟨v, rfl⟩
        have hmin := List.min?_eq_some_iff
          (fun a => Nat.le_refl a) (fun a b => min_choice a b)
          (fun a b c => le_min_iff) |>.mp hmn
        have hmax := List.max?_eq_some_iff
          (fun a => Nat.le_refl a) (fun a b => max_choice a b)
          (fun a b c => max_le_iff) |>.mp hmx
        rw [hmn, hmx] at heq
        simp only [Option.getD_some, Option.some.injEq, Prod.mk.injEq] at heq
        have hlo : lo = mn := heq.1.symm
        have hhi : hi = mx + 1 := heq.2.symm
        obtain ⟨x1, hx1, hc1, ha1⟩ := (hmem mn).mp hmin.1
        obtain ⟨x2, hx2, hc2, ha2⟩ := (hmem mx).mp hmax.1
        refine ⟨⟨x1, hx1, by rw [hlo, ha1], hc1⟩,
                ⟨x2, hx2, by rw [hhi, ha2], hc2⟩, ?_⟩
        intro x hx hc
        have hxm : x.1 ∈ m := (hmem x.1).mpr ⟨x, hx, hc, rfl⟩
        exact ⟨hlo ▸ hmin.2 x.1 hxm, by
          have := hmax.2 x.1 hxm
          omega⟩

/-! ### Output validation (claim C5) -/

/-- C5: `batch_has_valid_output` is true iff some artifact parses with
item count at least half the expected count; it is false for an empty
folder, for a folder with only unparsable artifacts, and when every
parsable artifact is below the threshold; and an unparsable artifact at
the front never decides the check (the scan continues with the rest). -/
theorem batch_has_valid_output_spec (files : List (Option Nat))
    (expected : Nat) :
    (batch_has_valid_output files expected = true ↔
      ∃ pf ∈ files, ∃ n, pf = some n ∧
        (expected : ℚ) * (1 / 2) ≤ (n : ℚ)) ∧
    batch_has_valid_output [] expected = false ∧
    ((∀ pf ∈ files, pf = none) →
      batch_has_valid_output files expected = false) ∧
    (∀ rest : List (Option Nat),
      batch_has_valid_output (none :: rest) expected
        = batch_has_valid_output rest expected) ∧
    ((∀ pf ∈ files, ∀ n, pf = some n → (n : ℚ) < (expected : ℚ) * (1 / 2))
      → batch_has_valid_output files expected = false) := by
  have hiff : batch_has_valid_output files expected = true ↔
      ∃ pf ∈ files, ∃ n, pf = some n ∧
        (expected : ℚ) * (1 / 2) ≤ (n : ℚ) := by
    unfold batch_has_valid_output
    split
    · next hEmpty =>
        simp [List.isEmpty_iff.mp hEmpty]
    · next hEmpty =>
        rw [List.any_eq_true]
        constructor
        · rintro ⟨pf, hpf, hp⟩
          cases pf with
          | none => simp at hp
          | some n => exact ⟨some n, hpf, n, rfl, by simpa using hp⟩
        · rintro ⟨pf, hpf, n, rfl, hle⟩
          exact ⟨some n, hpf, by simpa using hle⟩
  refine ⟨hiff, by simp [batch_has_valid_output], ?_, ?_, ?_⟩
  · intro hall
    cases hb : batch_has_valid_output files expected with
    | false => rfl
    | true =>
        obtain ⟨pf, hpf, n, heq, _⟩ := hiff.mp hb
        rw [hall pf hpf] at heq
        exact absurd heq (by simp)
  · intro rest
    cases rest with
    | nil => simp [batch_has_valid_output]
    | cons a t => simp [batch_has_valid_output]
  · intro hbelow
    cases hb : batch_has_valid_output files expected with
    | false => rfl
    | true =>
        obtain ⟨pf, hpf, n, heq, hge⟩ := hiff.mp hb
        have := hbelow pf hpf n heq
        linarith

/-- Witness for C5: one unparsable artifact and one artifact with 3
items, expecting 10 words (threshold 5): the check is false, and the
unparsable artifact did not abort it. -/
theorem batch_has_valid_output_spec_witness :
    batch_has_valid_output [none, some 3] 10 = false :=
  (batch_has_valid_output_spec [none, some 3] 10).2.2.2.2 (by
    intro pf hpf n heq
    rcases List.mem_cons.mp hpf with h1 | h1
    · rw [h1] at heq
      exact absurd heq (by simp)
    · have h2 : pf = some 3 := by simpa using h1
      rw [h2] at heq
      have h3 : n = 3 := by injection heq with h; exact h.symm
      rw [h3]
      norm_num)

/-! ### Command-line interface of the batch orchestrator (claim C1) -/

/-- C1 (code evaluated at the failing input): the scheduler invokes
`python batch_process.py 20 --count 10`, but the argv loop of
`batch_process.py main` does not accept `--count`: `int("--count")`
raises `ValueError`, so `main` prints the usage line and exits with
status 1 before processing any batch. -/
theorem batch_args_reject_count :
    run_batch_process_cmd 20 10 false
      = ["python", "batch_process.py", "20", "--count", "10"] ∧
    parse_batch_args ["20", "--count", "10"] 0 false = none ∧
    parse_batch_args ["20"] 0 false = some (20, false) ∧
    parse_batch_args ["20", "--force"] 0 false = some (20, true) := by
  refine ⟨by decide, by decide, by decide, by decide⟩

/-! ### Stop-on-failure of the batch orchestrator (claim C6) -/

/-- Closed characterization of the main batch loop: either no batch in
the list fails and `failed_batches` is unchanged, or the list splits
around a first failing batch `j`, `failed_batches` gains exactly `[j]`,
and everything newly attempted is `j` or precedes it in the list. -/
theorem batch_main_loop_chars (outcome : Nat → BatchOutcome) :
    ∀ (l : List Nat) (st : BatchRunState),
    ((batch_main_loop outcome l st).failed_batches = st.failed_batches ∧
      ∃ l2, (batch_main_loop outcome l st).attempted = st.attempted ++ l2 ∧
        ∀ k ∈ l2, k ∈ l) ∨
    (∃ j pre post, l = pre ++ j :: post ∧ outcome j = BatchOutcome.failure ∧
      (batch_main_loop outcome l st).failed_batches
        = st.failed_batches ++ [j] ∧
      ∃ l2, (batch_main_loop outcome l st).attempted
          = st.attempted ++ l2 ++ [j] ∧
        ∀ k ∈ l2, k ∈ pre) := by
  intro l
  induction l with
  | nil =>
      intro st
      exact Or.inl ⟨rfl, [], by simp [batch_main_loop], by simp⟩
  | cons b rest ih =>
      intro st
      cases hb : outcome b with
      | empty =>
          have := ih { st with skipped_batches := st.skipped_batches + 1 }
          rcases this with ⟨hf, l2, ha, hl2⟩ | ⟨j, pre, post, hsplit, hj, hf, l2, ha, hl2⟩
          · exact Or.inl ⟨by simp [batch_main_loop, hb, hf],
              l2, by simp [batch_main_loop, hb, ha],
              fun k hk => List.mem_cons_of_mem _ (hl2 k hk)⟩
          · refine Or.inr ⟨j, b :: pre, post, by rw [hsplit]; rfl, hj,
              by simp [batch_main_loop, hb, hf],
              l2, by simp [batch_main_loop, hb, ha],
              fun k hk => List.mem_cons_of_mem _ (hl2 k hk)⟩
      | success =>
          have := ih { st with processed_batches := st.processed_batches + 1,
                               attempted := st.attempted ++ [b] }
          rcases this with ⟨hf, l2, ha, hl2⟩ | ⟨j, pre, post, hsplit, hj, hf, l2, ha, hl2⟩
          · refine Or.inl ⟨by simp [batch_main_loop, hb, hf],
              b :: l2, by simp [batch_main_loop, hb]; simpa using ha, ?_⟩
            intro k hk
            rcases List.mem_cons.mp hk with hk | hk
            · exact hk ▸ List.mem_cons_self b rest
            · exact List.mem_cons_of_mem _ (hl2 k hk)
          · refine Or.inr ⟨j, b :: pre, post, by rw [hsplit]; rfl, hj,
              by simp [batch_main_loop, hb, hf],
              b :: l2, by simp [batch_main_loop, hb]; simpa using ha, ?_⟩
            intro k hk
            rcases List.mem_cons.mp hk with hk | hk
            · exact hk ▸ List.mem_cons_self b pre
            · exact List.mem_cons_of_mem _ (hl2 k hk)
      | failure =>
          exact Or.inr ⟨b, [], rest, rfl, hb,
            by simp [batch_main_loop, hb],
            [], by simp [batch_main_loop, hb], by simp⟩

/-- C6: in a `batch_process.py` run, at most one batch fails (the loop
records the first failing batch and breaks immediately, so every
attempted batch index is at most the failed one), and the exit status is
0 when no batch failed and 1 when one did. -/
theorem batch_main_stop_and_exit (outcome : Nat → BatchOutcome)
    (start_batch total_batches : Nat) :
    ((batch_main outcome start_batch total_batches).1.failed_batches = []
      → (batch_main outcome start_batch total_batches).2 = 0) ∧
    ((batch_main outcome start_batch total_batches).1.failed_batches ≠ []
      → (batch_main outcome start_batch total_batches).2 = 1) ∧
    (batch_main outcome start_batch total_batches).1.failed_batches.length
      ≤ 1 ∧
    (∀ j ∈ (batch_main outcome start_batch total_batches).1.failed_batches,
      outcome j = BatchOutcome.failure ∧
      ∀ k ∈ (batch_main outcome start_batch total_batches).1.attempted,
        k ≤ j) := by
  have hchars := batch_main_loop_chars outcome
    (List.range' start_batch (total_batches - start_batch)) {}
  have hpair : (List.range' start_batch
      (total_batches - start_batch)).Pairwise (· < ·) :=
    List.pairwise_lt_range' start_batch (total_batches - start_batch) 1
  rcases hchars with ⟨hf, l2, ha, hl2⟩ | ⟨j, pre, post, hsplit, hj, hf, l2, ha, hl2⟩
  · refine ⟨fun _ => by
        simp [batch_main, hf], fun hne => absurd hf hne, ?_, ?_⟩
    · simp [batch_main, hf]
    · intro j hjmem
      rw [show (batch_main outcome start_batch total_batches).1
          = batch_main_loop outcome
              (List.range' start_batch (total_batches - start_batch)) {}
          from rfl, hf] at hjmem
      exact absurd hjmem (List.not_mem_nil j)
  · have hfb : (batch_main outcome start_batch total_batches).1.failed_batches
        = [j] := by
      simpa [batch_main] using hf
    have hab : (batch_main outcome start_batch total_batches).1.attempted
        = l2 ++ [j] := by
      simpa [batch_main] using ha
    have hprelt : ∀ k ∈ pre, k < j := by
      rw [hsplit] at hpair
      intro k hk
      exact (List.pairwise_append.mp hpair).2.2 k hk j
        (List.mem_cons_self j post)
    refine ⟨fun h0 => absurd (hfb ▸ h0) (by simp), fun _ => ?_, ?_, ?_⟩
    · simp [batch_main] at hfb ⊢
      simp [hfb]
    · simp [hfb]
    · intro j2 hj2
      rw [hfb] at hj2
      have hj2 : j2 = j := by simpa using hj2
      subst hj2
      refine ⟨hj, ?_⟩
      intro k hk
      rw [hab] at hk
      rcases List.mem_append.mp hk with hk | hk
      · exact le_of_lt (hprelt k (hl2 k hk))
      · have : k = j2 := by simpa using hk
        exact this.le

/-- Witness for C6: batches 1 succeeds, 2 is empty, 3 fails, 4 and 5
are never reached; exit status 1. -/
theorem batch_main_stop_and_exit_witness :
    (batch_main
        (fun n => if n = 3 then BatchOutcome.failure
          else if n = 2 then BatchOutcome.empty else BatchOutcome.success)
        1 6).2 = 1 := by
  have h := batch_main_stop_and_exit
    (fun n => if n = 3 then BatchOutcome.failure
      else if n = 2 then BatchOutcome.empty else BatchOutcome.success) 1 6
  exact h.2.1 (by decide)

/-! ### Scheduler bucket math (claims C4 and C10) -/

theorem findBucketFrom_le (rt : List ℚ) (now : ℚ) :
    ∀ n, findBucketFrom rt now n ≤ n - 1 := by
  intro n
  induction n with
  | zero => simp [findBucketFrom]
  | succ m ih =>
      simp only [findBucketFrom]
      split
      · omega
      · exact le_trans ih (by omega)

theorem findBucketFrom_largest (rt : List ℚ) (now : ℚ) :
    ∀ n, (∃ i, i < n ∧ rt.getD i 0 ≤ now) →
      findBucketFrom rt now n < n ∧
      rt.getD (findBucketFrom rt now n) 0 ≤ now ∧
      ∀ i2, i2 < n → rt.getD i2 0 ≤ now → i2 ≤ findBucketFrom rt now n := by
  intro n
  induction n with
  | zero =>
      rintro ⟨i, hi, _⟩
      omega
  | succ m ih =>
      rintro ⟨i, hi, hile⟩
      by_cases hm : rt.getD m 0 ≤ now
      · refine ⟨?_, ?_, ?_⟩
        · simp only [findBucketFrom, if_pos hm]
          omega
        · simp only [findBucketFrom, if_pos hm]
          exact hm
        · intro i2 hi2 _
          simp only [findBucketFrom, if_pos hm]
          omega
      · have hi2 : i < m := by
          rcases Nat.lt_succ_iff_lt_or_eq.mp hi with h | h
          · exact h
          · subst h
            exact absurd hile hm
        have hrec := ih ⟨i, hi2, hile⟩
        simp only [findBucketFrom, if_neg hm]
        refine ⟨lt_trans hrec.1 (Nat.lt_succ_self m), hrec.2.1, ?_⟩
        intro j hj hjle
        have hj2 : j < m := by
          rcases Nat.lt_succ_iff_lt_or_eq.mp hj with h | h
          · exact h
          · subst h
            exact absurd hjle hm
        exact hrec.2.2 j hj2 hjle

theorem find_current_bucket_of_lt (rt : List ℚ) (now : ℚ)
    (h : now < rt.headD 0) :
    find_current_bucket_index rt now = 0 := by
  cases rt with
  | nil => rfl
  | cons a t =>
      unfold find_current_bucket_index
      rw [if_neg (by simp), if_pos (by simpa using h)]

theorem find_current_bucket_of_ge (rt : List ℚ) (now : ℚ)
    (hne : rt ≠ []) (h : ¬now < rt.headD 0) :
    find_current_bucket_index rt now = findBucketFrom rt now rt.length := by
  cases rt with
  | nil => exact absurd rfl hne
  | cons a t =>
      unfold find_current_bucket_index
      rw [if_neg (by simp), if_neg (by simpa using h)]

theorem runTimesFrom_eq (stop intv : ℚ) (hpos : 0 < intv) :
    ∀ (n : Nat) (current : ℚ), current ≤ stop →
      ⌊(stop - current) / intv⌋ = (n : ℤ) →
      runTimesFrom stop intv hpos current
        = (List.range (n + 1)).map (fun k : Nat => current + (k : ℚ) * intv)
      := by
  intro n
  induction n with
  | zero =>
      intro cur hle hfl
      have hnext : ¬(cur + intv ≤ stop) := by
        intro hc
        have h1 : (1 : ℚ) ≤ (stop - cur) / intv := by
          rw [le_div_iff₀ hpos]
          linarith
        have h2 : (1 : ℤ) ≤ ⌊(stop - cur) / intv⌋ :=
          Int.le_floor.mpr (by exact_mod_cast h1)
        omega
      rw [runTimesFrom, dif_pos hle, runTimesFrom, dif_neg hnext]
      have hr1 : List.range 1 = [0] := by decide
      rw [hr1]
      simp
  | succ m ih =>
      intro cur hle hfl
      have h1 : (1 : ℚ) ≤ (stop - cur) / intv := by
        have h2 : (1 : ℤ) ≤ ⌊(stop - cur) / intv⌋ := by omega
        calc (1 : ℚ) = ((1 : ℤ) : ℚ) := by norm_num
          _ ≤ ((⌊(stop - cur) / intv⌋ : ℤ) : ℚ) := by exact_mod_cast h2
          _ ≤ (stop - cur) / intv := Int.floor_le _
      have hnext : cur + intv ≤ stop := by
        rw [le_div_iff₀ hpos] at h1
        linarith
      have hfl2 : ⌊(stop - (cur + intv)) / intv⌋ = (m : ℤ) := by
        have hsub : (stop - (cur + intv)) / intv
            = (stop - cur) / intv - 1 := by
          field_simp
          ring
        rw [hsub, Int.floor_sub_one, hfl]
        push_cast
        ring
      rw [runTimesFrom, dif_pos hle, ih (cur + intv) hnext hfl2]
      have hr : List.range (m + 1 + 1) = 0 :: (List.range (m + 1)).map Nat.succ :=
        List.range_succ_eq_map (m + 1)
      rw [hr]
      simp only [List.map_cons, List.map_map, Nat.cast_zero, zero_mul,
        add_zero]
      congr 1
      refine List.map_congr_left ?_
      intro a _
      simp only [Function.comp_apply]
      push_cast
      ring

/-- C4: for `start ≤ stop` and a positive interval, the computed
run-time list is exactly `[start, start + intv, ...]` with
`⌊(stop - start) / intv⌋ + 1` elements; and on that list
`find_current_bucket_index` returns 0 whenever `now` precedes the first
trigger, and otherwise the largest index whose trigger time is ≤ `now`. -/
theorem calculate_run_times_spec (start stop intv now : ℚ)
    (hpos : 0 < intv) (hse : start ≤ stop) :
    calculate_run_times start stop intv
      = (List.range ((⌊(stop - start) / intv⌋).toNat + 1)).map
          (fun k : Nat => start + (k : ℚ) * intv) ∧
    (calculate_run_times start stop intv).length
      = (⌊(stop - start) / intv⌋).toNat + 1 ∧
    (now < start →
      find_current_bucket_index (calculate_run_times start stop intv) now
        = 0) ∧
    (start ≤ now →
      ∃ hr : find_current_bucket_index (calculate_run_times start stop intv)
          now < (calculate_run_times start stop intv).length,
        (calculate_run_times start stop intv).get
            ⟨find_current_bucket_index (calculate_run_times start stop intv)
              now, hr⟩ ≤ now ∧
        ∀ i (hi : i < (calculate_run_times start stop intv).length),
          (calculate_run_times start stop intv).get ⟨i, hi⟩ ≤ now →
          i ≤ find_current_bucket_index (calculate_run_times start stop intv)
            now) := by
  have hn0 : (0 : ℤ) ≤ ⌊(stop - start) / intv⌋ :=
    Int.floor_nonneg.mpr (div_nonneg (by linarith) hpos.le)
  have hcast : ((⌊(stop - start) / intv⌋.toNat : ℤ))
      = ⌊(stop - start) / intv⌋ := Int.toNat_of_nonneg hn0
  have heq : calculate_run_times start stop intv
      = (List.range (⌊(stop - start) / intv⌋.toNat + 1)).map
          (fun k : Nat => start + (k : ℚ) * intv) := by
    unfold calculate_run_times
    rw [dif_pos hpos]
    exact runTimesFrom_eq stop intv hpos _ start hse hcast.symm
  have hlen : (calculate_run_times start stop intv).length
      = ⌊(stop - start) / intv⌋.toNat + 1 := by
    rw [heq]
    simp
  have hlenpos : 0 < (calculate_run_times start stop intv).length := by
    rw [hlen]
    omega
  have hhead : (calculate_run_times start stop intv).headD 0 = start := by
    rw [heq, List.range_succ_eq_map]
    simp
  have hie : (calculate_run_times start stop intv).isEmpty = false := by
    rw [heq, List.range_succ_eq_map]
    simp
  have hne2 : calculate_run_times start stop intv ≠ [] := by
    rw [heq, List.range_succ_eq_map]
    simp
  refine ⟨heq, hlen, ?_, ?_⟩
  · intro hlt
    exact find_current_bucket_of_lt _ _ (by rw [hhead]; exact hlt)
  · intro hge
    have hnotlt : ¬(now < (calculate_run_times start stop intv).headD 0) := by
      rw [hhead]
      exact not_lt.mpr hge
    have h0 : (calculate_run_times start stop intv).getD 0 0 ≤ now := by
      rw [List.getD_eq_getElem _ _ hlenpos]
      have : (calculate_run_times start stop intv)[0] = start := by
        simp [heq, List.getElem_map, List.getElem_range]
      rw [this]
      exact hge
    have hfb : find_current_bucket_index
        (calculate_run_times start stop intv) now
        = findBucketFrom (calculate_run_times start stop intv) now
            (calculate_run_times start stop intv).length :=
      find_current_bucket_of_ge _ _ hne2 hnotlt
    have hmain := findBucketFrom_largest
      (calculate_run_times start stop intv) now
      (calculate_run_times start stop intv).length ⟨0, hlenpos, h0⟩
    have hr : find_current_bucket_index
        (calculate_run_times start stop intv) now
        < (calculate_run_times start stop intv).length := by
      rw [hfb]
      exact hmain.1
    refine ⟨hr, ?_, ?_⟩
    · have := hmain.2.1
      rw [← hfb] at this
      rw [List.get_eq_getElem,
        ← List.getD_eq_getElem (calculate_run_times start stop intv) 0 hr]
      exact this
    · intro i hi hile
      have : (calculate_run_times start stop intv).getD i 0 ≤ now := by
        rw [List.getD_eq_getElem _ _ hi]
        exact hile
      have h2 := hmain.2.2 i hi this
      rw [← hfb] at h2
      exact h2

/-- Witness for C4 at the claim's example: start 09:00, end 12:00,
interval 1h (run times 9:00, 10:00, 11:00, 12:00), now 11:30: four run
times and bucket index 2 (the 11:00 trigger). -/
theorem calculate_run_times_spec_witness :
    calculate_run_times 9 12 1 = [9, 10, 11, 12] ∧
    find_current_bucket_index (calculate_run_times 9 12 1) (23 / 2) = 2 := by
  have h := calculate_run_times_spec 9 12 1 (23 / 2) (by norm_num)
    (by norm_num)
  have hq : ((12 : ℚ) - 9) / 1 = ((3 : ℤ) : ℚ) := by norm_num
  have hfloor : ⌊((12 : ℚ) - 9) / 1⌋ = (3 : ℤ) := by
    rw [hq, Int.floor_intCast]
  have h4 : (⌊((12 : ℚ) - 9) / 1⌋).toNat + 1 = 4 := by
    rw [hfloor]
    rfl
  have hrt : calculate_run_times 9 12 1 = [9, 10, 11, 12] := by
    rw [h.1, h4]
    norm_num [List.range_succ]
  refine ⟨hrt, ?_⟩
  rw [hrt]
  rw [find_current_bucket_of_ge _ _ (by simp) (by norm_num)]
  norm_num [findBucketFrom]

/-- C10 counterexample: on the (non-chronological) run-time list
`[5, 1]` with `now = 2`, `now` is at or after the last trigger (1), but
the function returns 0, not the last index 1: the head guard fires
because `now` precedes the first trigger. -/
theorem find_current_bucket_index_unsorted_cex :
    find_current_bucket_index [5, 1] 2 = 0 ∧
    ([(5 : ℚ), 1].getD ([(5 : ℚ), 1].length - 1) 0 ≤ 2) ∧
    (0 : Nat) ≠ [(5 : ℚ), 1].length - 1 := by
  refine ⟨?_, by norm_num, by norm_num⟩
  rw [find_current_bucket_of_lt]
  norm_num

/-- C10 (amended): for every non-empty run-time list whose first trigger
is not after its last (as holds for every list `calculate_run_times`
produces) and every `now`, the returned index `i` satisfies
`0 ≤ i ≤ len - 1` (never `len`), and when `now` is at or after the last
trigger it is exactly the last index. -/
theorem find_current_bucket_index_bounds (rt : List ℚ) (now : ℚ)
    (hne : rt ≠ []) (hml : rt.headD 0 ≤ rt.getD (rt.length - 1) 0) :
    find_current_bucket_index rt now ≤ rt.length - 1 ∧
    find_current_bucket_index rt now < rt.length ∧
    (rt.getD (rt.length - 1) 0 ≤ now →
      find_current_bucket_index rt now = rt.length - 1) := by
  have hlen : 0 < rt.length := List.length_pos.mpr hne
  by_cases hlt : now < rt.headD 0
  · have h0 : find_current_bucket_index rt now = 0 :=
      find_current_bucket_of_lt rt now hlt
    refine ⟨by omega, by omega, ?_⟩
    intro hlast
    exact absurd hlt (not_lt.mpr (le_trans hml hlast))
  · have hfb : find_current_bucket_index rt now
        = findBucketFrom rt now rt.length :=
      find_current_bucket_of_ge rt now hne hlt
    have hub := findBucketFrom_le rt now rt.length
    refine ⟨by omega, by omega, ?_⟩
    intro hlast
    obtain ⟨m, hm⟩ : ∃ m, rt.length = m + 1 := ⟨rt.length - 1, by omega⟩
    rw [hfb, hm]
    simp only [findBucketFrom]
    rw [hm] at hlast
    simp only [Nat.add_sub_cancel] at hlast
    rw [if_pos hlast]
    omega

/-- Witness for C10 (amended) at `[9, 10]`, `now = 11`: the result is
the last index, 1. -/
theorem find_current_bucket_index_bounds_witness :
    find_current_bucket_index [9, 10] 11 = 1 := by
  have h := find_current_bucket_index_bounds [9, 10] 11
    (List.cons_ne_nil _ _) (by norm_num)
  have h2 := h.2.2 (by norm_num)
  simpa using h2

/-! ### Step 3 circuit breaker (claims C2 and C9) -/

theorem periodicSave_consec (i : Nat) (st : Step3State) :
    (periodicSave i st).consec = st.consec := by
  unfold periodicSave
  split <;> rfl

theorem periodicSave_entries (i : Nat) (st : Step3State) :
    (periodicSave i st).entries = st.entries := by
  unfold periodicSave
  split <;> rfl

theorem periodicSave_disk_save (i : Nat) (st : Step3State)
    (h : (i + 1) % 10 = 0) : (periodicSave i st).disk = st.entries := by
  unfold periodicSave
  rw [if_pos h]

theorem periodicSave_disk_nosave (i : Nat) (st : Step3State)
    (h : ¬(i + 1) % 10 = 0) : (periodicSave i st).disk = st.disk := by
  unfold periodicSave
  rw [if_neg h]

theorem step3Iter_consec_ok (i : Nat) (st : Step3State) (w : String)
    (ve : List String) :
    ∃ st2, step3Iter i st (w, GenOutcome.ok ve) = Except.ok st2 ∧
      st2.consec = 0 :=
  ⟨_, rfl, by rw [periodicSave_consec]⟩

theorem step3Iter_consec_fail_noncli (i : Nat) (st : Step3State)
    (w : String) (errs : List String) (h : hasCliError errs = false) :
    ∃ st2, step3Iter i st (w, GenOutcome.fail errs) = Except.ok st2 ∧
      st2.consec = 0 := by
  have heq : step3Iter i st (w, GenOutcome.fail errs)
      = Except.ok (periodicSave i
          { st with cpFailed := dictInsert st.cpFailed w, consec := 0 }) := by
    show (if hasCliError errs = true then _ else _) = _
    rw [if_neg (by rw [h]; simp)]
  exact ⟨_, heq, by rw [periodicSave_consec]⟩

theorem step3Iter_fail_cli_first (i : Nat) (st : Step3State) (w : String)
    (errs : List String) (h : hasCliError errs = true)
    (h0 : st.consec = 0) :
    ∃ st2, step3Iter i st (w, GenOutcome.fail errs) = Except.ok st2 ∧
      st2.consec = 1 := by
  have heq : step3Iter i st (w, GenOutcome.fail errs)
      = Except.ok (periodicSave i
          { st with cpFailed := dictInsert st.cpFailed w,
                    consec := st.consec + 1 }) := by
    show (if hasCliError errs = true then _ else _) = _
    rw [if_pos h, if_neg (by omega)]
  refine ⟨_, heq, ?_⟩
  rw [periodicSave_consec]
  show st.consec + 1 = 1
  omega

theorem step3Iter_fail_cli_threshold (i : Nat) (st : Step3State)
    (w : String) (errs : List String) (h : hasCliError errs = true)
    (h1 : 1 ≤ st.consec) :
    step3Iter i st (w, GenOutcome.fail errs)
      = Except.error { st with cpFailed := dictInsert st.cpFailed w,
                               consec := st.consec + 1 } := by
  show (if hasCliError errs = true then _ else _) = _
  rw [if_pos h, if_pos (by omega)]

theorem step3Iter_eq_ok (i : Nat) (st : Step3State) (w : String)
    (ve : List String) :
    step3Iter i st (w, GenOutcome.ok ve)
      = Except.ok (periodicSave i
          { st with entries := dictInsert st.entries w,
                    cpProcessed := dictInsert st.cpProcessed w,
                    consec := 0 }) := rfl

theorem step3Iter_eq_fail_noncli (i : Nat) (st : Step3State) (w : String)
    (errs : List String) (h : hasCliError errs = false) :
    step3Iter i st (w, GenOutcome.fail errs)
      = Except.ok (periodicSave i
          { st with cpFailed := dictInsert st.cpFailed w,
                    consec := 0 }) := by
  show (if hasCliError errs = true then _ else _) = _
  rw [if_neg (by rw [h]; simp)]

theorem step3Iter_eq_fail_cli_low (i : Nat) (st : Step3State) (w : String)
    (errs : List String) (h : hasCliError errs = true)
    (h1 : st.consec + 1 < 2) :
    step3Iter i st (w, GenOutcome.fail errs)
      = Except.ok (periodicSave i
          { st with cpFailed := dictInsert st.cpFailed w,
                    consec := st.consec + 1 }) := by
  show (if hasCliError errs = true then _ else _) = _
  rw [if_pos h, if_neg (by omega)]

theorem step3Iter_error_disk (i : Nat) (st : Step3State)
    (a : String × GenOutcome) (e : Step3State)
    (h : step3Iter i st a = Except.error e) : e.disk = st.disk := by
  obtain ⟨w, o⟩ := a
  cases o with
  | ok ve =>
      rw [step3Iter_eq_ok] at h
      exact absurd h (by simp)
  | fail errs =>
      by_cases hcli : hasCliError errs = true
      · by_cases h1 : st.consec + 1 ≥ 2
        · rw [step3Iter_fail_cli_threshold i st w errs hcli (by omega)] at h
          injection h with h2
          rw [← h2]
        · rw [step3Iter_eq_fail_cli_low i st w errs hcli (by omega)] at h
          exact absurd h (by simp)
      · have hcli2 : hasCliError errs = false := by
          cases hh : hasCliError errs
          · rfl
          · exact absurd hh hcli
        rw [step3Iter_eq_fail_noncli i st w errs hcli2] at h
        exact absurd h (by simp)

theorem step3Iter_ok_shape (i : Nat) (st : Step3State)
    (a : String × GenOutcome) (st3 : Step3State)
    (h : step3Iter i st a = Except.ok st3) :
    ∃ stX, st3 = periodicSave i stX ∧ stX.disk = st.disk := by
  obtain ⟨w, o⟩ := a
  cases o with
  | ok ve =>
      rw [step3Iter_eq_ok] at h
      injection h with h2
      exact ⟨_, h2.symm, rfl⟩
  | fail errs =>
      by_cases hcli : hasCliError errs = true
      · by_cases h1 : st.consec + 1 ≥ 2
        · rw [step3Iter_fail_cli_threshold i st w errs hcli (by omega)] at h
          exact absurd h (by simp)
        · rw [step3Iter_eq_fail_cli_low i st w errs hcli (by omega)] at h
          injection h with h2
          exact ⟨_, h2.symm, rfl⟩
      · have hcli2 : hasCliError errs = false := by
          cases hh : hasCliError errs
          · rfl
          · exact absurd hh hcli
        rw [step3Iter_eq_fail_noncli i st w errs hcli2] at h
        injection h with h2
        exact ⟨_, h2.symm, rfl⟩

/-- On abort, the output file holds either its original content or the
content written by the last completed periodic save (the save at the end
of the `m`-th iteration, `m + 1` a multiple of 10). -/
theorem step3Loop_abort_disk :
    ∀ (items : List (String × GenOutcome)) (i : Nat) (st st2 : Step3State),
    step3Loop i st items = Except.error st2 →
    st2.disk = st.disk ∨
    ∃ m, m < items.length ∧ (i + m + 1) % 10 = 0 ∧
      st2.disk = (step3StateAtFrom i st (items.take (m + 1))).entries := by
  intro items
  induction items with
  | nil =>
      intro i st st2 h
      exact absurd h (by simp [step3Loop])
  | cons a rest ih =>
      intro i st st2 h
      cases hiter : step3Iter i st a with
      | error e =>
          have hl : step3Loop i st (a :: rest) = Except.error e := by
            simp [step3Loop, hiter]
          rw [hl] at h
          injection h with h2
          subst h2
          left
          exact step3Iter_error_disk i st a e hiter
      | ok st3 =>
          have hl : step3Loop i st (a :: rest)
              = step3Loop (i + 1) st3 rest := by
            simp [step3Loop, hiter]
          rw [hl] at h
          have hna : step3IterNoAbort i st a = st3 := by
            unfold step3IterNoAbort
            rw [hiter]
          rcases ih (i + 1) st3 st2 h with hd | ⟨m, hm, hmod, hdisk⟩
          · obtain ⟨stX, hshape, hdiskX⟩ := step3Iter_ok_shape i st a st3 hiter
            by_cases hsave : (i + 1) % 10 = 0
            · right
              refine ⟨0, by simp, by simpa using hsave, ?_⟩
              rw [hd, hshape, periodicSave_disk_save _ _ hsave]
              have ht : (a :: rest).take 1 = [a] := rfl
              rw [ht]
              show stX.entries
                = (step3IterNoAbort i st a).entries
              rw [hna, hshape, periodicSave_entries]
            · left
              rw [hd, hshape, periodicSave_disk_nosave _ _ hsave]
              exact hdiskX
          · right
            refine ⟨m + 1, by simp only [List.length_cons]; omega,
              by omega, ?_⟩
            rw [hdisk]
            have ht : (a :: rest).take (m + 1 + 1) = a :: rest.take (m + 1)
              := rfl
            rw [ht]
            show (step3StateAtFrom (i + 1) st3 (rest.take (m + 1))).entries
              = (step3StateAtFrom (i + 1) (step3IterNoAbort i st a)
                  (rest.take (m + 1))).entries
            rw [hna]

/-- The loop raises the circuit breaker exactly when, starting from a
consecutive count of 0, two adjacent CLI-error failures occur; from a
count of 1, also when the very next item is a CLI-error failure. -/
theorem step3Loop_abort_iff :
    ∀ (items : List (String × GenOutcome)) (i : Nat) (st : Step3State),
    (st.consec = 0 →
      exceptIsError (step3Loop i st items) = hasAdjCliFail items) ∧
    (st.consec = 1 →
      exceptIsError (step3Loop i st items)
        = (items.head?.elim false isCliFail || hasAdjCliFail items)) := by
  intro items
  induction items with
  | nil =>
      intro i st
      exact ⟨fun _ => rfl, fun _ => rfl⟩
  | cons a rest ih =>
      intro i st
      obtain ⟨w, o⟩ := a
      cases o with
      | ok ve =>
          obtain ⟨st2, heq, hc⟩ := step3Iter_consec_ok i st w ve
          constructor <;> intro hcs <;>
            simp only [step3Loop, heq] <;>
            rw [(ih (i + 1) st2).1 hc] <;>
            cases rest <;>
            simp [hasAdjCliFail, isCliFail]
      | fail errs =>
          by_cases hcli : hasCliError errs = true
          · constructor
            · intro h0
              obtain ⟨st2, heq, hc⟩ :=
                step3Iter_fail_cli_first i st w errs hcli h0
              simp only [step3Loop, heq]
              rw [(ih (i + 1) st2).2 hc]
              cases rest with
              | nil => simp [hasAdjCliFail]
              | cons b r2 => simp [hasAdjCliFail, isCliFail, hcli]
            · intro h1
              simp only [step3Loop,
                step3Iter_fail_cli_threshold i st w errs hcli (by omega)]
              simp [exceptIsError, isCliFail, hcli]
          · have hcli2 : hasCliError errs = false := by
              cases h : hasCliError errs
              · rfl
              · exact absurd h hcli
            obtain ⟨st2, heq, hc⟩ :=
              step3Iter_consec_fail_noncli i st w errs hcli2
            constructor <;> intro hcs <;>
              simp only [step3Loop, heq] <;>
              rw [(ih (i + 1) st2).1 hc] <;>
              cases rest <;>
              simp [hasAdjCliFail, isCliFail, hcli2]

/-- `hasAdjCliFail` in index form. -/
theorem hasAdjCliFail_iff :
    ∀ items : List (String × GenOutcome),
    hasAdjCliFail items = true ↔
    ∃ j, ∃ h : j + 1 < items.length,
      isCliFail (items.get ⟨j, Nat.lt_of_succ_lt h⟩) = true ∧
      isCliFail (items.get ⟨j + 1, h⟩) = true := by
  intro items
  induction items with
  | nil =>
      simp [hasAdjCliFail]
  | cons a rest ih =>
      cases rest with
      | nil =>
          simp [hasAdjCliFail]
      | cons b r2 =>
          constructor
          · intro h
            have h2 : (isCliFail a = true ∧ isCliFail b = true) ∨
                hasAdjCliFail (b :: r2) = true := by
              simpa [hasAdjCliFail] using h
            rcases h2 with ⟨ha, hb⟩ | h2
            · exact ⟨0, by simp, ha, hb⟩
            · obtain ⟨j, hj, hj1, hj2⟩ := ih.mp h2
              refine ⟨j + 1, by simpa using Nat.succ_lt_succ hj, ?_, ?_⟩
              · simpa using hj1
              · simpa using hj2
          · rintro ⟨j, hj, hj1, hj2⟩
            cases j with
            | zero =>
                have : hasAdjCliFail (a :: b :: r2)
                    = ((isCliFail a && isCliFail b) ||
                        hasAdjCliFail (b :: r2)) := rfl
                rw [this]
                simp only [List.get] at hj1 hj2
                rw [hj1, hj2]
                simp
            | succ j2 =>
                have : hasAdjCliFail (a :: b :: r2)
                    = ((isCliFail a && isCliFail b) ||
                        hasAdjCliFail (b :: r2)) := rfl
                rw [this]
                have hrec := ih.mpr ⟨j2, by simpa using Nat.lt_of_succ_lt_succ hj,
                  by simpa using hj1, by simpa using hj2⟩
                rw [hrec]
                simp

/-- C9: in `run_step3`, a success resets the consecutive-failure count
to 0, and so does a failure whose error text does not contain
`"Claude CLI error"`; consequently the stage raises
`ClaudeConsecutiveFailureError` iff two adjacent items are CLI-error
failures (two uninterrupted CLI failures with no success and no
other-kind failure between them). -/
theorem run_step3_cli_circuit (items : List (String × GenOutcome)) :
    (∀ i st w ve, ∃ st2,
      step3Iter i st (w, GenOutcome.ok ve) = Except.ok st2 ∧
        st2.consec = 0) ∧
    (∀ i st w errs, hasCliError errs = false → ∃ st2,
      step3Iter i st (w, GenOutcome.fail errs) = Except.ok st2 ∧
        st2.consec = 0) ∧
    (∀ loaded disk0 : List String,
      exceptIsError (step3Loop 0 (step3Init loaded disk0) items) = true ↔
      ∃ j, ∃ h : j + 1 < items.length,
        isCliFail (items.get ⟨j, Nat.lt_of_succ_lt h⟩) = true ∧
        isCliFail (items.get ⟨j + 1, h⟩) = true) := by
  refine ⟨step3Iter_consec_ok, step3Iter_consec_fail_noncli, ?_⟩
  intro loaded disk0
  rw [(step3Loop_abort_iff items 0 (step3Init loaded disk0)).1 rfl]
  exact hasAdjCliFail_iff items

/-- C2 counterexample: two consecutive stage-level generation failures
that are not CLI errors (here two `ClaudeParseError` results, whose text
does not contain `"Claude CLI error"`), with zero intervening successes,
do NOT abort the stage: the loop runs to completion (no
`ClaudeConsecutiveFailureError`), contrary to the claim that 2
consecutive generation failures abort it. -/
theorem step3_two_noncli_failures_no_abort :
    exceptIsError (step3Loop 0 (step3Init [] [])
      [("w1", GenOutcome.fail ["Failed to parse Claude response as JSON: e"]),
       ("w2", GenOutcome.fail ["Failed to parse Claude response as JSON: e"])])
      = false := by decide

/-- C2 (amended): after exactly 2 consecutive CLI-error generation
failures (`"Claude CLI error"` in the error text) with zero intervening
successes or other-kind failures, the stage aborts: `run_step3` returns
the previously loaded entries, and the output file keeps either its
original content or the content of the last completed periodic save —
nothing accumulated after that save is persisted. A single intervening
success resets the consecutive count to 0. -/
theorem run_step3_abort_persistence
    (loaded disk0 : List String) (items : List (String × GenOutcome))
    (st2 : Step3State)
    (habort : step3Loop 0 (step3Init loaded disk0) items
      = Except.error st2) :
    run_step3 loaded disk0 items = (loaded, st2.disk) ∧
    (st2.disk = disk0 ∨
      ∃ m, m < items.length ∧ (m + 1) % 10 = 0 ∧
        st2.disk = (step3StateAtFrom 0 (step3Init loaded disk0)
            (items.take (m + 1))).entries) ∧
    (∀ i st w ve, ∃ stN,
      step3Iter i st (w, GenOutcome.ok ve) = Except.ok stN ∧
        stN.consec = 0) := by
  refine ⟨?_, ?_, step3Iter_consec_ok⟩
  · unfold run_step3
    rw [habort]
  · rcases step3Loop_abort_disk items 0 (step3Init loaded disk0) st2 habort
      with hd | ⟨m, hm, hmod, hdisk⟩
    · left
      exact hd
    · right
      exact ⟨m, hm, by omega, hdisk⟩

/-- Witness for C2 (amended): a run that aborts on the second
consecutive CLI-error failure returns the loaded entries `["x"]` and
leaves the output file content `["d"]` untouched (no periodic save had
happened). -/
theorem run_step3_abort_persistence_witness :
    run_step3 ["x"] ["d"]
      [("a", GenOutcome.fail ["Claude CLI error: boom"]),
       ("b", GenOutcome.fail ["Claude CLI error: boom"])] = (["x"], ["d"]) :=
  (run_step3_abort_persistence ["x"] ["d"]
    [("a", GenOutcome.fail ["Claude CLI error: boom"]),
     ("b", GenOutcome.fail ["Claude CLI error: boom"])]
    { entries := ["x"], consec := 2, disk := ["d"],
      cpProcessed := [], cpFailed := ["a", "b"] } (by rfl)).1

/-- Witness for C9: two adjacent CLI-error failures abort the loop. -/
theorem run_step3_cli_circuit_witness :
    exceptIsError (step3Loop 0 (step3Init [] [])
      [("a", GenOutcome.fail ["Claude CLI error: boom"]),
       ("b", GenOutcome.fail ["Claude CLI error: boom"])]) = true :=
  ((run_step3_cli_circuit
      [("a", GenOutcome.fail ["Claude CLI error: boom"]),
       ("b", GenOutcome.fail ["Claude CLI error: boom"])]).2.2 [] []).mpr
    ⟨0, by decide, by decide, by decide⟩

/-- Witness for C7: no frequency in `[(5, 300, "a"), (2, 200, "b")]`
lies in the window `[1, 100]`, so the range is `None`. -/
theorem get_row_range_for_frequency_spec_witness :
    get_row_range_for_frequency [(5, 300, "a"), (2, 200, "b")] 1 100
      = none :=
  (get_row_range_for_frequency_spec
    [(5, 300, "a"), (2, 200, "b")] 1 100).1.mpr (by decide)

end DailyWord
